import Mathlib

/-!
Shallow embedding of the note storage layer of the `udon` repository
(package `notes`: `Store.Load`, `Store.Save`, `Store.Delete`, `Store.Update`,
`Store.GetNotes`) and of the session operations layered on top of it
(`checkDuplicateName`, `ConfirmSave`).

The filesystem is modelled as the listing of the single notes directory:
a list of entries, each carrying its name, whether it is a subdirectory,
its content, its modification time (an integer instant; Go's
`time.Time.Local()` only changes the display timezone, not the instant,
so it is dropped), and two flags modelling whether opening the file and
reading its metadata succeed.  `filepath.Join(notesDir, f)` is modelled by
using `f` itself as the key, which is faithful because every filename the
store produces ends in ".md" and has had `/` and `\` replaced by `_`.
Write-side syscall failures (`os.WriteFile`, `os.Rename`, `os.Remove`,
`os.ReadDir`) are injected through an explicit environment `FsEnv`.
-/

/-- Go `unicode.IsSpace`: the Latin-1 white space runes together with the
Unicode `White_Space` property code points. -/
def isSpaceGo (c : Char) : Bool :=
  let n := c.toNat
  (decide (9 ≤ n) && decide (n ≤ 13)) || n == 32 || n == 133 || n == 160 ||
    n == 0x1680 || (decide (0x2000 ≤ n) && decide (n ≤ 0x200a)) ||
    n == 0x2028 || n == 0x2029 || n == 0x202f || n == 0x205f || n == 0x3000

/-- Go `strings.TrimSpace`: drop leading and trailing white space. -/
def trimSpace (s : String) : String :=
  ⟨((s.data.dropWhile isSpaceGo).reverse.dropWhile isSpaceGo).reverse⟩

/-- Go `strings.TrimRightFunc(s, unicode.IsSpace)`: drop trailing white space. -/
def trimRightSpace (s : String) : String :=
  ⟨(s.data.reverse.dropWhile isSpaceGo).reverse⟩

/-- The character class of the regexp `[<>:"/\\|?*]` in `sanitizeFilename`. -/
def isInvalidFilenameChar (c : Char) : Bool :=
  c == '<' || c == '>' || c == ':' || c == '"' || c == '/' || c == '\\' ||
    c == '|' || c == '?' || c == '*'

/-- `sanitizeFilename` replaces every invalid filename character with an
underscore (`ReplaceAllString` on a single-character class is a per-character
map). -/
def sanitizeFilename (name : String) : String :=
  ⟨name.data.map (fun c => if isInvalidFilenameChar c then '_' else c)⟩

/-- The filename the store derives from a title, as computed identically in
`Load`, `Save`, `Delete` and `Update`:
`sanitizeFilename(strings.TrimSpace(title)) + ".md"`. -/
def noteFilename (title : String) : String :=
  sanitizeFilename (trimSpace title) ++ ".md"

/-- Go `filepath.Ext`: the suffix of the name starting at its last dot, or
the empty string when the name has no dot. -/
def extname (s : String) : String :=
  match s.data.reverse.findIdx? (fun c => c == '.') with
  | none => ""
  | some i => ⟨(s.data.reverse.take (i + 1)).reverse⟩

/-- Go `strings.TrimSuffix(s, ".md")`. -/
def trimSuffixMd (s : String) : String :=
  if s.data.reverse.take 3 = ['d', 'm', '.'] then ⟨s.data.take (s.data.length - 3)⟩
  else s

/-- Split a character list at every newline; a list with `k` newlines yields
`k + 1` segments. -/
def splitOnNl : List Char → List (List Char)
  | [] => [[]]
  | c :: rest =>
    match splitOnNl rest with
    | [] => [[c]]
    | seg :: segs => if c = '\n' then [] :: seg :: segs else (c :: seg) :: segs

/-- `bufio.ScanLines` drops one carriage return at the end of each line. -/
def dropTrailingCR (l : List Char) : List Char :=
  match l.reverse with
  | '\r' :: rest => rest.reverse
  | _ => l

/-- The content `GetNotes` reconstructs from a file: `bufio.Scanner` with the
default `ScanLines` split yields the newline-separated lines (no empty final
token when the data ends in a newline, each line with a trailing `\r`
removed), and the loop joins them with `strings.Join(content, "\n")`. -/
def scanContent (s : String) : String :=
  let segs := splitOnNl s.data
  let toks := if segs.getLast? = some [] then segs.dropLast else segs
  ⟨((toks.map dropTrailingCR).intersperse ['\n']).flatten⟩

deriving instance DecidableEq for Except

/-- One entry of the notes directory listing. -/
structure DirEntry where
  name : String
  isDir : Bool
  content : String
  modTime : Int
  openOk : Bool
  statOk : Bool
deriving DecidableEq, Repr

/-- The state of the notes directory: its listing. -/
abbrev Dir := List DirEntry

/-- Injected outcomes for the write-side and enumeration syscalls. -/
structure FsEnv where
  readDirOk : Bool
  writeOk : String → Bool
  renameOk : String → String → Bool
  removeOk : String → Bool

/-- An entry is the regular file of the given name. -/
def matchesFile (name : String) (e : DirEntry) : Bool :=
  !e.isDir && e.name == name

/-- The regular file of the given name in the directory, if any. -/
def findFile (d : Dir) (name : String) : Option DirEntry :=
  d.find? (matchesFile name)

/-- Whether the directory has a subdirectory of the given name. -/
def hasDirNamed (d : Dir) (name : String) : Bool :=
  d.any (fun e => e.isDir && e.name == name)

/-- Filesystem-level failure: the target does not exist, or another I/O
error. -/
inductive FsErr where
  | notExist
  | ioErr
deriving DecidableEq, Repr

/-- `os.ReadFile`: the content of the named regular file; `notExist` when the
name is absent, `ioErr` when the file cannot be opened, and also `ioErr` when
the name is borne only by a subdirectory — opening a directory succeeds but
the read fails with EISDIR, for which `os.IsNotExist` is false. -/
def readFileFs (d : Dir) (name : String) : Except FsErr String :=
  match findFile d name with
  | none =>
    if hasDirNamed d name then Except.error FsErr.ioErr
    else Except.error FsErr.notExist
  | some e => if e.openOk then Except.ok e.content else Except.error FsErr.ioErr

/-- `os.Stat`: the modification time of the named regular file. -/
def statFs (d : Dir) (name : String) : Except FsErr Int :=
  match findFile d name with
  | none => Except.error FsErr.notExist
  | some e => if e.statOk then Except.ok e.modTime else Except.error FsErr.ioErr

/-- `os.WriteFile`: overwrite the named regular file, or create it.  Fails
when the environment makes the write fail or when a subdirectory already
bears the name.  A freshly written file is openable and statable. -/
def writeFileFs (env : FsEnv) (d : Dir) (name content : String) (now : Int) :
    Except FsErr Dir :=
  if !env.writeOk name || hasDirNamed d name then Except.error FsErr.ioErr
  else if (findFile d name).isSome then
    Except.ok (d.map (fun e =>
      if matchesFile name e then
        { e with content := content, modTime := now, openOk := true, statOk := true }
      else e))
  else
    Except.ok (d ++ [{ name := name, isDir := false, content := content,
                       modTime := now, openOk := true, statOk := true }])

/-- The listing after a successful rename: the old target (a regular file of
the new name, if any) is replaced, and the source file now bears the new
name.  A rename changes neither content nor modification time. -/
def renameEntries (d : Dir) (o n : String) : Dir :=
  (d.filter (fun e => !matchesFile n e)).map
    (fun e => if matchesFile o e then { e with name := n } else e)

/-- `os.Rename`: fails with `notExist` when the source file is absent, and
with `ioErr` when the environment makes the rename fail or a subdirectory
bears the target name; renaming a file to its own name succeeds and changes
nothing. -/
def renameFs (env : FsEnv) (d : Dir) (o n : String) : Except FsErr Dir :=
  match findFile d o with
  | none => Except.error FsErr.notExist
  | some _ =>
    if !env.renameOk o n || hasDirNamed d n then Except.error FsErr.ioErr
    else if o = n then Except.ok d
    else Except.ok (renameEntries d o n)

/-- `os.Remove`: remove the named regular file.  When only a subdirectory
bears the name the model reports `ioErr` (directory contents are not
modelled, so directory removal is treated as the non-empty case). -/
def removeFs (env : FsEnv) (d : Dir) (name : String) : Except FsErr Dir :=
  match findFile d name with
  | some _ =>
    if env.removeOk name then Except.ok (d.filter (fun e => !matchesFile name e))
    else Except.error FsErr.ioErr
  | none =>
    if hasDirNamed d name then Except.error FsErr.ioErr
    else Except.error FsErr.notExist

/-- `Note` as in `package notes`. -/
structure Note where
  Title : String
  Content : String
  ModTime : Int
deriving DecidableEq, Repr

/-- The error values the store and session operations produce, one
constructor per distinct `errors.New`/`fmt.Errorf` site; a constructor
carries the title (or path) exactly when the Go message interpolates it. -/
inductive StoreError where
  | validationError
  | notFound (title : String)
  | readError (title : String)
  | statError (title : String)
  | writeError
  | deleteError (title : String)
  | renameError (oldTitle newTitle : String)
  | dirReadError
deriving DecidableEq, Repr

namespace Store

/-- `Store.Load`: read the file derived from the title; `notFound` when the
file is absent, `readError` on any other read failure, `statError` when the
file info cannot be obtained.  The returned note echoes the title exactly as
passed. -/
def Load (d : Dir) (title : String) : Except StoreError Note :=
  let filename := noteFilename title
  match readFileFs d filename with
  | Except.error FsErr.notExist => Except.error (StoreError.notFound title)
  | Except.error FsErr.ioErr => Except.error (StoreError.readError title)
  | Except.ok content =>
    match statFs d filename with
    | Except.error _ => Except.error (StoreError.statError title)
    | Except.ok mt => Except.ok { Title := title, Content := content, ModTime := mt }

/-- `Store.Save`: reject a blank title, then write the trailing-whitespace
trimmed content to the derived filename, overwriting unconditionally.  The
pair returns the outcome and the directory after the call. -/
def Save (env : FsEnv) (d : Dir) (now : Int) (note : Note) :
    Except StoreError Unit × Dir :=
  if trimSpace note.Title = "" then (Except.error StoreError.validationError, d)
  else
    match writeFileFs env d (noteFilename note.Title) (trimRightSpace note.Content) now with
    | Except.error _ => (Except.error StoreError.writeError, d)
    | Except.ok d' => (Except.ok (), d')

/-- `Store.Delete`: reject a blank name, then remove the derived file;
`notFound` when it is absent, `deleteError` on any other removal failure. -/
def Delete (env : FsEnv) (d : Dir) (noteName : String) :
    Except StoreError Unit × Dir :=
  if trimSpace noteName = "" then (Except.error StoreError.validationError, d)
  else
    match removeFs env d (noteFilename noteName) with
    | Except.error FsErr.notExist => (Except.error (StoreError.notFound noteName), d)
    | Except.error FsErr.ioErr => (Except.error (StoreError.deleteError noteName), d)
    | Except.ok d' => (Except.ok (), d')

/-- `Store.Update`: reject a blank old title; succeed without touching the
directory when both updates are absent; rename first when a non-blank new
title is supplied; then, when new content is supplied, read the (possibly
just renamed) file back and rewrite it only when the trimmed new content
differs.  No step is rolled back on a later failure. -/
def Update (env : FsEnv) (d : Dir) (now : Int) (oldTitle : String)
    (updatedTitle updatedContent : Option String) : Except StoreError Unit × Dir :=
  if trimSpace oldTitle = "" then (Except.error StoreError.validationError, d)
  else if updatedTitle = none ∧ updatedContent = none then (Except.ok (), d)
  else
    let oldFilename := noteFilename oldTitle
    let step1 : Except StoreError (Dir × String) :=
      match updatedTitle with
      | some newT =>
        if trimSpace newT ≠ "" then
          match renameFs env d oldFilename (noteFilename newT) with
          | Except.error _ => Except.error (StoreError.renameError oldTitle newT)
          | Except.ok d1 => Except.ok (d1, noteFilename newT)
        else Except.ok (d, oldFilename)
      | none => Except.ok (d, oldFilename)
    match step1 with
    | Except.error e => (Except.error e, d)
    | Except.ok (d1, path) =>
      match updatedContent with
      | none => (Except.ok (), d1)
      | some c =>
        match readFileFs d1 path with
        | Except.error _ => (Except.error (StoreError.readError path), d1)
        | Except.ok oldContent =>
          let newContent := trimRightSpace c
          if newContent = oldContent then (Except.ok (), d1)
          else
            match writeFileFs env d1 path newContent now with
            | Except.error _ => (Except.error StoreError.writeError, d1)
            | Except.ok d2 => (Except.ok (), d2)

/-- The per-entry loop body of `GetNotes`, in source order: skip
subdirectories, skip names whose extension is not ".md", skip files that
cannot be opened, skip files whose metadata cannot be read, and otherwise
record the note with the suffix-stripped name, the scanned content and the
modification time. -/
def collectNotes : Dir → List Note
  | [] => []
  | e :: rest =>
    if e.isDir then collectNotes rest
    else if extname e.name ≠ ".md" then collectNotes rest
    else if e.openOk = false then collectNotes rest
    else if e.statOk = false then collectNotes rest
    else { Title := trimSuffixMd e.name, Content := scanContent e.content,
           ModTime := e.modTime } :: collectNotes rest

/-- Insert a note into a list kept in descending modification-time order:
the comparison is `notes[i].ModTime.After(notes[j].ModTime)`. -/
def insertNoteByTime (n : Note) : List Note → List Note
  | [] => [n]
  | m :: rest =>
    if m.ModTime < n.ModTime then n :: m :: rest else m :: insertNoteByTime n rest

/-- A sort of the collected notes by descending modification time, standing
for `sort.Slice(notes, func(i, j) { ... After ... })`: `sort.Slice` is not
stable, so the result of the Go call is characterized exactly by being a
permutation of the input that is non-increasing in `ModTime`, which this
insertion sort produces. -/
def sortNotesByTime (l : List Note) : List Note :=
  l.foldr insertNoteByTime []

/-- `Store.GetNotes`: enumerate the directory (failing only when the
enumeration itself fails), collect one note per processable ".md" regular
file, and sort by modification time, most recent first. -/
def GetNotes (env : FsEnv) (d : Dir) : Except StoreError (List Note) :=
  if env.readDirOk then Except.ok (sortNotesByTime (collectNotes d))
  else Except.error StoreError.dirReadError

end Store

/-- `checkDuplicateName`: list all notes and report "duplicate" when some
listed title is exactly equal to the given title, "okay" otherwise. -/
def checkDuplicateName (env : FsEnv) (d : Dir) (title : String) :
    Except StoreError String :=
  match Store.GetNotes env d with
  | Except.error e => Except.error e
  | Except.ok notes =>
    if notes.any (fun n => n.Title == title) then Except.ok "duplicate"
    else Except.ok "okay"

/-- `ConfirmSave`: a pure cancel when not confirmed; otherwise run the
duplicate check, return "note exists" without writing on a duplicate, and
otherwise delegate to `Store.Save`, returning "saved" on success and
propagating the error otherwise. -/
def ConfirmSave (env : FsEnv) (d : Dir) (now : Int) (note : Note)
    (confirm : Bool) : Except StoreError String × Dir :=
  if confirm then
    match checkDuplicateName env d note.Title with
    | Except.error e => (Except.error e, d)
    | Except.ok status =>
      if status = "duplicate" then (Except.ok "note exists", d)
      else
        match Store.Save env d now note with
        | (Except.error e, d') => (Except.error e, d')
        | (Except.ok _, d') => (Except.ok "saved", d')
  else (Except.ok "not saved", d)

/-- An environment in which every syscall succeeds. -/
def envAllOk : FsEnv :=
  { readDirOk := true, writeOk := fun _ => true, renameOk := fun _ _ => true,
    removeOk := fun _ => true }

/-- An environment in which every syscall succeeds except `os.WriteFile`,
which always fails. -/
def envNoWrite : FsEnv :=
  { envAllOk with writeOk := fun _ => false }

/-- Claim-side characterization of the listing (C5): an entry is listed
exactly when it is a regular file whose name has extension ".md" and which
can be opened and statted, and it is listed as the note whose title is the
filename with the ".md" suffix stripped. -/
def listedNote (e : DirEntry) : Option Note :=
  if e.isDir = false ∧ extname e.name = ".md" ∧ e.openOk = true ∧ e.statOk = true then
    some { Title := trimSuffixMd e.name, Content := scanContent e.content,
           ModTime := e.modTime }
  else none

/-- Whether the Go value returned by `GetNotes` is the nil slice: the
function declares `var notes []Note` (nil), appends one element per listed
note, and `sort.Slice` sorts in place without replacing the slice header, so
the returned slice is nil exactly when the call succeeds having collected no
note. -/
def getNotesGoNil (env : FsEnv) (d : Dir) : Bool :=
  env.readDirOk && (Store.collectNotes d).isEmpty

/-- The kind of a store error, with the interpolated title or path payload
forgotten. -/
inductive ErrKind where
  | validationKind
  | notFoundKind
  | readKind
  | statKind
  | writeKind
  | deleteKind
  | renameKind
  | dirReadKind
deriving DecidableEq, Repr

/-- Forget the payload of a store error. -/
def StoreError.kind : StoreError → ErrKind
  | StoreError.validationError => ErrKind.validationKind
  | StoreError.notFound _ => ErrKind.notFoundKind
  | StoreError.readError _ => ErrKind.readKind
  | StoreError.statError _ => ErrKind.statKind
  | StoreError.writeError => ErrKind.writeKind
  | StoreError.deleteError _ => ErrKind.deleteKind
  | StoreError.renameError _ _ => ErrKind.renameKind
  | StoreError.dirReadError => ErrKind.dirReadKind

/-- The observable part of a `Load` result that does not echo the raw title
back: success or error kind, and on success the content and modification
time. -/
def loadView (r : Except StoreError Note) : Except ErrKind (String × Int) :=
  match r with
  | Except.ok n => Except.ok (n.Content, n.ModTime)
  | Except.error e => Except.error e.kind

/-- The observable part of a mutating operation's result that does not echo
the raw title back: success or error kind, and the directory after the
call. -/
def opView (r : Except StoreError Unit × Dir) : Except ErrKind Unit × Dir :=
  (match r.1 with
   | Except.ok u => Except.ok u
   | Except.error e => Except.error e.kind, r.2)

example : noteFilename " a/b " = "a_b.md" := by decide
example : trimRightSpace "- milk\n- eggs   \n" = "- milk\n- eggs" := by decide
example : scanContent "a\r\nb\n" = "a\nb" := by decide
example : scanContent "" = "" := by decide
example : extname "a.md" = ".md" := by decide
example : extname ".md" = ".md" := by decide
example : extname "amd" = "" := by decide
example : trimSuffixMd ".md" = "" := by decide
example :
    Store.Load [{ name := "a.md", isDir := false, content := "hi", modTime := 3,
                  openOk := true, statOk := true }] " a " =
      Except.ok { Title := " a ", Content := "hi", ModTime := 3 } := by decide
example :
    (Store.Save envAllOk [] 5 { Title := "t", Content := "x ", ModTime := 0 }).1 =
      Except.ok () := by decide
example : Store.GetNotes envAllOk [] = Except.ok [] := by decide

/-! Helper lemmas about the filesystem primitives. -/

theorem findFile_map_write (l : Dir) (name content : String) (now : Int)
    (h : (findFile l name).isSome = true) :
    findFile (l.map (fun e =>
      if matchesFile name e then
        { e with content := content, modTime := now, openOk := true, statOk := true }
      else e)) name =
      some ⟨name, false, content, now, true, true⟩ := by
  induction l with
  | nil => simp [findFile] at h
  | cons e rest ih =>
    by_cases hme : matchesFile name e = true
    · have hfields : e.isDir = false ∧ e.name = name := by
        have h2 := hme
        unfold matchesFile at h2
        simp at h2
        exact h2
      simp only [List.map_cons]
      rw [if_pos hme]
      unfold findFile
      rw [List.find?_cons_of_pos _ (show matchesFile name
        { e with content := content, modTime := now, openOk := true, statOk := true } = true by
          unfold matchesFile
          simp [hfields.1, hfields.2])]
      cases e
      simp_all
    · have hrest : (findFile rest name).isSome = true := by
        unfold findFile at h
        rw [List.find?_cons_of_neg _ hme] at h
        exact h
      simp only [List.map_cons]
      rw [if_neg hme]
      unfold findFile
      rw [List.find?_cons_of_neg _ hme]
      exact ih hrest

theorem findFile_writeFileFs {env : FsEnv} {d : Dir} {name content : String}
    {now : Int} {d' : Dir}
    (h : writeFileFs env d name content now = Except.ok d') :
    findFile d' name = some ⟨name, false, content, now, true, true⟩ := by
  unfold writeFileFs at h
  split at h
  · exact absurd h (by simp)
  · split at h
    · rename_i hf
      have hd' := (Except.ok.injEq _ _).mp h
      subst hd'
      exact findFile_map_write d name content now hf
    · rename_i hf
      have hd' := (Except.ok.injEq _ _).mp h
      subst hd'
      have hnone : findFile d name = none := by
        cases hfd : findFile d name with
        | none => rfl
        | some e => rw [hfd] at hf; simp at hf
      unfold findFile at hnone ⊢
      rw [List.find?_append, hnone]
      simp [matchesFile]

theorem writeFileFs_ok {env : FsEnv} {d : Dir} {name content : String} {now : Int}
    (hw : env.writeOk name = true) (hd : hasDirNamed d name = false) :
    ∃ d', writeFileFs env d name content now = Except.ok d' := by
  unfold writeFileFs
  rw [hw, hd]
  by_cases hf : (findFile d name).isSome = true
  · exact ⟨_, by rw [if_neg (by simp), if_pos hf]⟩
  · exact ⟨_, by rw [if_neg (by simp), if_neg hf]⟩

/-- C8: for every non-blank `oldTitle` and every directory state and
environment, `Update(oldTitle, nil, nil)` returns success and leaves the
directory completely unchanged. -/
theorem update_noop (env : FsEnv) (d : Dir) (now : Int) (t : String)
    (h : trimSpace t ≠ "") :
    Store.Update env d now t none none = (Except.ok (), d) := by
  unfold Store.Update
  rw [if_neg h]
  simp

/-- C8 witness: `Update("a", nil, nil)` on a sample one-file directory. -/
theorem update_noop_witness :
    Store.Update envAllOk [⟨"a.md", false, "x", 0, true, true⟩] 7 "a" none none =
      (Except.ok (), [⟨"a.md", false, "x", 0, true, true⟩]) :=
  update_noop envAllOk _ 7 "a" (by decide)

/-- C10: for a title whose trimmed form is empty, `Load` performs no
validation: it never returns the validation error; it attempts to read the
file named ".md", returning the not-found error when nothing of that name
exists, the read error when only a subdirectory named ".md" exists (reading
a directory fails with EISDIR, a non-IsNotExist error), and the file's
content when a readable regular file ".md" is present. -/
theorem load_blank_title (d : Dir) (t : String) (h : trimSpace t = "") :
    Store.Load d t ≠ Except.error StoreError.validationError ∧
    (findFile d ".md" = none → hasDirNamed d ".md" = false →
      Store.Load d t = Except.error (StoreError.notFound t)) ∧
    (findFile d ".md" = none → hasDirNamed d ".md" = true →
      Store.Load d t = Except.error (StoreError.readError t)) ∧
    (∀ e : DirEntry, findFile d ".md" = some e → e.openOk = true → e.statOk = true →
      Store.Load d t = Except.ok { Title := t, Content := e.content, ModTime := e.modTime }) := by
  have hf : noteFilename t = ".md" := by
    unfold noteFilename
    rw [h]
    rfl
  refine ⟨?_, ?_, ?_, ?_⟩
  · simp only [Store.Load]
    split
    · simp
    · simp
    · split <;> simp
  · intro hnone hdirf
    simp only [Store.Load, hf, readFileFs, hnone, hdirf]
    simp
  · intro hnone hdirt
    simp only [Store.Load, hf, readFileFs, hnone, hdirt]
    simp
  · intro e hsome hopen hstat
    simp only [Store.Load, hf, readFileFs, statFs, hsome, hopen, hstat, if_true]

/-- C10 witness: a whitespace-only title loads the file named ".md", and
fails with not-found on an empty directory. -/
theorem load_blank_title_witness :
    Store.Load [⟨".md", false, "hi", 3, true, true⟩] " " =
      Except.ok { Title := " ", Content := "hi", ModTime := 3 } ∧
    Store.Load [] " " = Except.error (StoreError.notFound " ") := by
  constructor
  · exact (load_blank_title _ " " (by decide)).2.2.2
      ⟨".md", false, "hi", 3, true, true⟩ (by decide) rfl rfl
  · exact (load_blank_title [] " " (by decide)).2.1 rfl rfl

/-- C7: `Delete` rejects a blank title with the validation error leaving the
directory untouched; on a non-blank title whose sanitized file is absent it
fails with the not-found error; and when the file exists and the removal
syscall succeeds it removes exactly the entries matching that file. -/
theorem delete_error_behaviour (env : FsEnv) (d : Dir) (t : String) :
    (trimSpace t = "" → Store.Delete env d t = (Except.error StoreError.validationError, d)) ∧
    (trimSpace t ≠ "" → findFile d (noteFilename t) = none →
      hasDirNamed d (noteFilename t) = false →
      Store.Delete env d t = (Except.error (StoreError.notFound t), d)) ∧
    (trimSpace t ≠ "" → (findFile d (noteFilename t)).isSome = true →
      env.removeOk (noteFilename t) = true →
      Store.Delete env d t =
        (Except.ok (), d.filter (fun e => !matchesFile (noteFilename t) e))) := by
  refine ⟨?_, ?_, ?_⟩
  · intro h
    unfold Store.Delete
    rw [if_pos h]
  · intro h hn hdir
    unfold Store.Delete
    rw [if_neg h]
    simp only [removeFs, hn, hdir]
    simp
  · intro h hs hr
    obtain ⟨e, he⟩ := Option.isSome_iff_exists.mp hs
    unfold Store.Delete
    rw [if_neg h]
    simp only [removeFs, he, hr, if_true]

/-- C7 witness: deleting a missing note fails with not-found, and deleting an
existing one removes its file. -/
theorem delete_error_behaviour_witness :
    Store.Delete envAllOk [⟨"a.md", false, "x", 0, true, true⟩] "b" =
      (Except.error (StoreError.notFound "b"), [⟨"a.md", false, "x", 0, true, true⟩]) ∧
    Store.Delete envAllOk [⟨"a.md", false, "x", 0, true, true⟩] "a" =
      (Except.ok (), []) := by
  constructor
  · exact (delete_error_behaviour envAllOk [⟨"a.md", false, "x", 0, true, true⟩] "b").2.1
      (by decide) (by decide) (by decide)
  · exact (delete_error_behaviour envAllOk [⟨"a.md", false, "x", 0, true, true⟩] "a").2.2
      (by decide) (by decide) (by decide)

/-- C1: saving a note with a non-blank title and then loading that title
succeeds and returns the title as passed together with the content with
trailing whitespace trimmed. -/
theorem save_then_load_roundtrip (env : FsEnv) (d : Dir) (now tm : Int) (t c : String)
    (ht : trimSpace t ≠ "")
    (hw : env.writeOk (noteFilename t) = true)
    (hd : hasDirNamed d (noteFilename t) = false) :
    ∃ d', Store.Save env d now { Title := t, Content := c, ModTime := tm } =
        (Except.ok (), d') ∧
      Store.Load d' t = Except.ok { Title := t, Content := trimRightSpace c, ModTime := now } := by
  obtain ⟨d', hwr⟩ :=
    @writeFileFs_ok env d (noteFilename t) (trimRightSpace c) now hw hd
  have hfind := findFile_writeFileFs hwr
  refine ⟨d', ?_, ?_⟩
  · simp only [Store.Save]
    rw [if_neg ht, hwr]
  · simp only [Store.Load, readFileFs, statFs, hfind]
    simp

/-- C1 witness: save then load of a concrete note. -/
theorem save_then_load_roundtrip_witness :
    ∃ d', Store.Save envAllOk [] 1 { Title := "a", Content := "b ", ModTime := 0 } =
        (Except.ok (), d') ∧
      Store.Load d' "a" =
        Except.ok { Title := "a", Content := trimRightSpace "b ", ModTime := 1 } :=
  save_then_load_roundtrip envAllOk [] 1 0 "a" "b " (by decide) (by decide) (by decide)

/-- C4: the duplicate check reports "duplicate" exactly when some note of the
listing has a title that is exactly (case-sensitively) equal to the given
title, and "okay" exactly when none has. -/
theorem checkDuplicateName_exact_iff (env : FsEnv) (d : Dir) (t : String)
    (ns : List Note) (h : Store.GetNotes env d = Except.ok ns) :
    (checkDuplicateName env d t = Except.ok "duplicate" ↔ ∃ n ∈ ns, n.Title = t) ∧
    (checkDuplicateName env d t = Except.ok "okay" ↔ ∀ n ∈ ns, n.Title ≠ t) := by
  unfold checkDuplicateName
  rw [h]
  dsimp only
  by_cases ha : ns.any (fun n => n.Title == t) = true
  · rw [if_pos ha]
    have hex : ∃ n ∈ ns, n.Title = t := by
      obtain ⟨n, hn, hb⟩ := List.any_eq_true.mp ha
      exact ⟨n, hn, eq_of_beq hb⟩
    refine ⟨⟨fun _ => hex, fun _ => rfl⟩, ⟨fun hh => ?_, fun hall => ?_⟩⟩
    · exact absurd hh (by simp)
    · obtain ⟨n, hn, hnt⟩ := hex
      exact absurd hnt (hall n hn)
  · rw [if_neg ha]
    have hall : ∀ n ∈ ns, n.Title ≠ t := by
      intro n hn hnt
      exact ha (List.any_eq_true.mpr ⟨n, hn, beq_iff_eq.mpr hnt⟩)
    refine ⟨⟨fun hh => ?_, fun hex => ?_⟩, ⟨fun _ => hall, fun _ => rfl⟩⟩
    · exact absurd hh (by simp)
    · obtain ⟨n, hn, hnt⟩ := hex
      exact absurd hnt (hall n hn)

/-- C4 witness: a stored title "a_b" is not flagged as a duplicate of the raw
title "a/b" even though both sanitize to the same filename. -/
theorem checkDuplicateName_exact_iff_witness :
    checkDuplicateName envAllOk [⟨"a_b.md", false, "x", 0, true, true⟩] "a/b" =
      Except.ok "okay" ∧ noteFilename "a/b" = noteFilename "a_b" := by
  constructor
  · exact ((checkDuplicateName_exact_iff envAllOk [⟨"a_b.md", false, "x", 0, true, true⟩]
      "a/b" [{ Title := "a_b", Content := "x", ModTime := 0 }] (by decide)).2).mpr (by decide)
  · decide

/-- C3 amended: `ConfirmSave` is a pure cancel when not confirmed; returns
"note exists" without touching the directory when a listed title equals the
note's title exactly; and otherwise delegates to `Store.Save`, returning
"saved" on success and propagating the save error (with the directory as the
save left it) otherwise. -/
theorem confirmSave_gating (env : FsEnv) (d : Dir) (now : Int) (note : Note) :
    ConfirmSave env d now note false = (Except.ok "not saved", d) ∧
    (∀ ns, Store.GetNotes env d = Except.ok ns → (∃ n ∈ ns, n.Title = note.Title) →
      ConfirmSave env d now note true = (Except.ok "note exists", d)) ∧
    (∀ ns, Store.GetNotes env d = Except.ok ns → (∀ n ∈ ns, n.Title ≠ note.Title) →
      ConfirmSave env d now note true =
        ((Store.Save env d now note).1.map (fun _ => "saved"),
         (Store.Save env d now note).2)) := by
  refine ⟨rfl, ?_, ?_⟩
  · intro ns h hex
    obtain ⟨n, hn, hnt⟩ := hex
    have hdup : checkDuplicateName env d note.Title = Except.ok "duplicate" := by
      unfold checkDuplicateName
      rw [h]
      dsimp only
      have ha : (ns.any fun m => m.Title == note.Title) = true :=
        List.any_eq_true.mpr ⟨n, hn, by simp [hnt]⟩
      rw [if_pos ha]
    unfold ConfirmSave
    rw [if_pos rfl, hdup]
    dsimp only
    rw [if_pos rfl]
  · intro ns h hall
    have hok : checkDuplicateName env d note.Title = Except.ok "okay" := by
      unfold checkDuplicateName
      rw [h]
      dsimp only
      rw [if_neg]
      intro ha
      obtain ⟨n, hn, hb⟩ := List.any_eq_true.mp ha
      exact hall n hn (eq_of_beq hb)
    unfold ConfirmSave
    rw [if_pos rfl, hok]
    dsimp only
    rw [if_neg (by simp)]
    rcases hs : Store.Save env d now note with ⟨r, d'⟩
    cases r <;> simp [hs, Except.map]

/-- C3 counterexample: with confirmation, an empty listing (so no duplicate)
and a blank-titled note, `ConfirmSave` returns the propagated validation
error, not the "saved" status the claim promises for this branch. -/
theorem confirmSave_blank_title_counterexample :
    checkDuplicateName envAllOk [] "" = Except.ok "okay" ∧
    ConfirmSave envAllOk [] 0 { Title := "", Content := "x", ModTime := 0 } true =
      (Except.error StoreError.validationError, []) := by
  decide

/-- C3 witness: a duplicate title yields "note exists" with the directory
untouched. -/
theorem confirmSave_gating_witness :
    ConfirmSave envAllOk [⟨"a.md", false, "x", 5, true, true⟩] 9
      { Title := "a", Content := "y", ModTime := 0 } true =
      (Except.ok "note exists", [⟨"a.md", false, "x", 5, true, true⟩]) :=
  (confirmSave_gating envAllOk [⟨"a.md", false, "x", 5, true, true⟩] 9
      { Title := "a", Content := "y", ModTime := 0 }).2.1
    [{ Title := "a", Content := "x", ModTime := 5 }] (by decide) (by decide)

/-! Lemmas for the listing claims. -/

theorem insertNoteByTime_perm (n : Note) (l : List Note) :
    (Store.insertNoteByTime n l).Perm (n :: l) := by
  induction l with
  | nil => exact List.Perm.refl _
  | cons m rest ih =>
    simp only [Store.insertNoteByTime]
    by_cases hc : m.ModTime < n.ModTime
    · rw [if_pos hc]
    · rw [if_neg hc]
      exact (List.Perm.cons m ih).trans (List.Perm.swap n m rest)

theorem sortNotesByTime_perm (l : List Note) : (Store.sortNotesByTime l).Perm l := by
  induction l with
  | nil => exact List.Perm.refl _
  | cons m rest ih =>
    unfold Store.sortNotesByTime at *
    simp only [List.foldr_cons]
    exact (insertNoteByTime_perm m _).trans (List.Perm.cons m ih)

theorem insertNoteByTime_pairwise (n : Note) (l : List Note)
    (h : l.Pairwise (fun a b => b.ModTime ≤ a.ModTime)) :
    (Store.insertNoteByTime n l).Pairwise (fun a b => b.ModTime ≤ a.ModTime) := by
  induction l with
  | nil => simp [Store.insertNoteByTime]
  | cons m rest ih =>
    simp only [Store.insertNoteByTime]
    rcases List.pairwise_cons.mp h with ⟨hm, hrest⟩
    by_cases hc : m.ModTime < n.ModTime
    · rw [if_pos hc]
      refine List.pairwise_cons.mpr ⟨?_, h⟩
      intro b hb
      rcases List.mem_cons.mp hb with rfl | hb'
      · exact le_of_lt hc
      · exact le_trans (hm b hb') (le_of_lt hc)
    · rw [if_neg hc]
      refine List.pairwise_cons.mpr ⟨?_, ih hrest⟩
      intro b hb
      rcases List.mem_cons.mp ((insertNoteByTime_perm n rest).mem_iff.mp hb) with rfl | hb'
      · exact le_of_not_lt hc
      · exact hm b hb'

theorem sortNotesByTime_pairwise (l : List Note) :
    (Store.sortNotesByTime l).Pairwise (fun a b => b.ModTime ≤ a.ModTime) := by
  induction l with
  | nil => simp [Store.sortNotesByTime]
  | cons m rest ih =>
    unfold Store.sortNotesByTime at *
    simp only [List.foldr_cons]
    exact insertNoteByTime_pairwise m _ ih

theorem collectNotes_eq_filterMap (d : Dir) :
    Store.collectNotes d = d.filterMap listedNote := by
  induction d with
  | nil => rfl
  | cons e rest ih =>
    simp only [Store.collectNotes, listedNote, List.filterMap_cons]
    by_cases h1 : e.isDir = true
    · simp [h1, ih, listedNote]
    · by_cases h2 : extname e.name = ".md"
      · by_cases h3 : e.openOk = true
        · by_cases h4 : e.statOk = true
          · simp [h1, h2, h3, h4, ih, listedNote]
          · simp [h1, h2, h3, h4, ih, listedNote]
        · simp [h1, h2, h3, ih, listedNote]
      · simp [h1, h2, ih, listedNote]

/-- C5: a successful listing is a permutation of the claim-side
characterization (exactly one note per regular ".md" file that can be opened
and statted, with the suffix-stripped title) and is sorted by modification
time, most recent first. -/
theorem getNotes_complete_sorted (env : FsEnv) (d : Dir) (ns : List Note)
    (h : Store.GetNotes env d = Except.ok ns) :
    ns.Perm (d.filterMap listedNote) ∧
    ns.Pairwise (fun a b => b.ModTime ≤ a.ModTime) := by
  unfold Store.GetNotes at h
  by_cases he : env.readDirOk = true
  · rw [if_pos he] at h
    have hns : ns = Store.sortNotesByTime (Store.collectNotes d) :=
      ((Except.ok.injEq _ _).mp h).symm
    subst hns
    constructor
    · have hp := sortNotesByTime_perm (Store.collectNotes d)
      rw [collectNotes_eq_filterMap] at hp ⊢
      exact hp
    · exact sortNotesByTime_pairwise _
  · rw [if_neg he] at h
    exact absurd h (by simp)

/-- C5 witness: a directory holding two good ".md" files (saved out of time
order), a subdirectory, a ".txt" file and an unopenable ".md" file lists
exactly the two good notes, most recent first. -/
theorem getNotes_complete_sorted_witness :
    ([{ Title := "a", Content := "x", ModTime := 5 },
      { Title := "b", Content := "y", ModTime := 1 }] : List Note).Perm
      (([⟨"b.md", false, "y", 1, true, true⟩, ⟨"sub", true, "", 9, true, true⟩,
         ⟨"x.txt", false, "z", 9, true, true⟩, ⟨"bad.md", false, "q", 9, false, true⟩,
         ⟨"a.md", false, "x", 5, true, true⟩] : Dir).filterMap listedNote) ∧
    ([{ Title := "a", Content := "x", ModTime := 5 },
      { Title := "b", Content := "y", ModTime := 1 }] : List Note).Pairwise
      (fun a b => b.ModTime ≤ a.ModTime) :=
  getNotes_complete_sorted envAllOk
    [⟨"b.md", false, "y", 1, true, true⟩, ⟨"sub", true, "", 9, true, true⟩,
     ⟨"x.txt", false, "z", 9, true, true⟩, ⟨"bad.md", false, "q", 9, false, true⟩,
     ⟨"a.md", false, "x", 5, true, true⟩]
    [{ Title := "a", Content := "x", ModTime := 5 },
     { Title := "b", Content := "y", ModTime := 1 }] (by decide)

/-- C6 counterexample: on the empty directory `GetNotes` succeeds with a
length-zero listing, but the Go slice it returns is the nil slice (the
function starts from `var notes []Note` and appends nothing), so the
returned sequence is null, contrary to the claim. -/
theorem getNotes_empty_dir_nil_counterexample :
    Store.GetNotes envAllOk [] = Except.ok [] ∧ getNotesGoNil envAllOk [] = true := by
  decide

/-- C6 amended: on every directory state with an enumerable directory and no
regular ".md" file, `GetNotes` succeeds and returns a length-zero listing
(which in the implementation is Go's nil slice, not a non-nil empty one). -/
theorem getNotes_no_md_empty (env : FsEnv) (d : Dir) (henv : env.readDirOk = true)
    (h : ∀ e ∈ d, e.isDir = true ∨ extname e.name ≠ ".md") :
    Store.GetNotes env d = Except.ok [] := by
  have hc : ∀ (l : Dir), (∀ e ∈ l, e.isDir = true ∨ extname e.name ≠ ".md") →
      Store.collectNotes l = [] := by
    intro l
    induction l with
    | nil => intro _; rfl
    | cons e rest ih =>
      intro hl
      have he := hl e (List.mem_cons_self e rest)
      have hrest : ∀ x ∈ rest, x.isDir = true ∨ extname x.name ≠ ".md" :=
        fun x hx => hl x (List.mem_cons_of_mem e hx)
      rcases he with h1 | h2
      · rw [show Store.collectNotes (e :: rest) = Store.collectNotes rest by
            simp [Store.collectNotes, h1]]
        exact ih hrest
      · by_cases hdd : e.isDir = true
        · rw [show Store.collectNotes (e :: rest) = Store.collectNotes rest by
              simp [Store.collectNotes, hdd]]
          exact ih hrest
        · rw [show Store.collectNotes (e :: rest) = Store.collectNotes rest by
              simp [Store.collectNotes, hdd, h2]]
          exact ih hrest
  unfold Store.GetNotes
  rw [if_pos henv, hc d h]
  rfl

/-- C6 witness: a directory holding only a ".txt" file and a subdirectory
lists nothing. -/
theorem getNotes_no_md_empty_witness :
    Store.GetNotes envAllOk
      [⟨"a.txt", false, "x", 0, true, true⟩, ⟨"sub", true, "", 0, true, true⟩] =
      Except.ok [] :=
  getNotes_no_md_empty envAllOk
    [⟨"a.txt", false, "x", 0, true, true⟩, ⟨"sub", true, "", 0, true, true⟩]
    rfl (by decide)

/-! Lemmas about the listing after a successful rename. -/

theorem findFile_renameEntries_new (d : Dir) (o n : String) (hne : o ≠ n) :
    findFile (renameEntries d o n) n =
      (findFile d o).map (fun e => { e with name := n }) := by
  induction d with
  | nil => rfl
  | cons e rest ih =>
    unfold renameEntries findFile at *
    by_cases hn : matchesFile n e = true
    · have ho : ¬matchesFile o e = true := by
        intro ho
        unfold matchesFile at hn ho
        simp at hn ho
        exact hne (ho.2.symm.trans hn.2)
      rw [List.filter_cons_of_neg (by simp [hn])]
      rw [List.find?_cons_of_neg _ ho]
      exact ih
    · rw [List.filter_cons_of_pos (by simp [hn])]
      simp only [List.map_cons]
      by_cases ho : matchesFile o e = true
      · rw [if_pos ho]
        have hm : matchesFile n { e with name := n } = true := by
          unfold matchesFile at ho ⊢
          simp at ho
          simp [ho.1]
        rw [List.find?_cons_of_pos _ hm, List.find?_cons_of_pos _ ho]
        rfl
      · rw [if_neg ho]
        rw [List.find?_cons_of_neg _ hn, List.find?_cons_of_neg _ ho]
        exact ih

theorem findFile_renameEntries_old (d : Dir) (o n : String) (hne : o ≠ n) :
    findFile (renameEntries d o n) o = none := by
  induction d with
  | nil => rfl
  | cons e rest ih =>
    unfold renameEntries findFile at *
    by_cases hn : matchesFile n e = true
    · rw [List.filter_cons_of_neg (by simp [hn])]
      exact ih
    · rw [List.filter_cons_of_pos (by simp [hn])]
      simp only [List.map_cons]
      by_cases ho : matchesFile o e = true
      · rw [if_pos ho]
        rw [List.find?_cons_of_neg]
        · exact ih
        · intro hcontr
          unfold matchesFile at hcontr
          simp at hcontr
          exact hne hcontr.2.symm
      · rw [if_neg ho]
        rw [List.find?_cons_of_neg _ ho]
        exact ih

/-- C2: when `Update` is given a non-blank new title and new content, the
rename of the backing file succeeds, the renamed file is readable, the
trimmed new content differs, and the content write fails, `Update` returns
the write error and the directory is left with the note's file under the
sanitized new title still holding the old content — the rename is not rolled
back. -/
theorem update_rename_write_failure_no_rollback
    (env : FsEnv) (d : Dir) (now : Int) (oldT newT c : String) (e : DirEntry) (d1 : Dir)
    (hold : trimSpace oldT ≠ "")
    (hnewt : trimSpace newT ≠ "")
    (hne : noteFilename oldT ≠ noteFilename newT)
    (hfind : findFile d (noteFilename oldT) = some e)
    (hren : renameFs env d (noteFilename oldT) (noteFilename newT) = Except.ok d1)
    (hopen : e.openOk = true)
    (hdiff : trimRightSpace c ≠ e.content)
    (hw : env.writeOk (noteFilename newT) = false) :
    Store.Update env d now oldT (some newT) (some c) =
      (Except.error StoreError.writeError, d1) ∧
    findFile d1 (noteFilename newT) = some { e with name := noteFilename newT } ∧
    findFile d1 (noteFilename oldT) = none := by
  have hd1 : d1 = renameEntries d (noteFilename oldT) (noteFilename newT) := by
    unfold renameFs at hren
    rw [hfind] at hren
    dsimp only at hren
    by_cases hg : (!env.renameOk (noteFilename oldT) (noteFilename newT) ||
        hasDirNamed d (noteFilename newT)) = true
    · rw [if_pos hg] at hren
      exact absurd hren (by simp)
    · rw [if_neg hg, if_neg hne] at hren
      exact ((Except.ok.injEq _ _).mp hren).symm
  have hnew : findFile d1 (noteFilename newT) = some { e with name := noteFilename newT } := by
    rw [hd1, findFile_renameEntries_new d _ _ hne, hfind]
    rfl
  have holdn : findFile d1 (noteFilename oldT) = none := by
    rw [hd1]
    exact findFile_renameEntries_old d _ _ hne
  refine ⟨?_, hnew, holdn⟩
  unfold Store.Update
  rw [if_neg hold, if_neg (by simp)]
  dsimp only
  rw [if_pos hnewt, hren]
  dsimp only
  unfold readFileFs
  rw [hnew]
  dsimp only
  rw [if_pos hopen]
  dsimp only
  rw [if_neg hdiff]
  unfold writeFileFs
  rw [hw]
  simp

/-- C2 witness: renaming "a" to "b" succeeds, then the content write fails,
leaving the file "b.md" with the old content and no file "a.md". -/
theorem update_rename_write_failure_no_rollback_witness :
    Store.Update envNoWrite [⟨"a.md", false, "old", 0, true, true⟩] 1 "a"
      (some "b") (some "new") =
      (Except.error StoreError.writeError, [⟨"b.md", false, "old", 0, true, true⟩]) :=
  (update_rename_write_failure_no_rollback envNoWrite
    [⟨"a.md", false, "old", 0, true, true⟩] 1 "a" "b" "new"
    ⟨"a.md", false, "old", 0, true, true⟩ [⟨"b.md", false, "old", 0, true, true⟩]
    (by decide) (by decide) (by decide) (by decide) (by decide) rfl (by decide) rfl).1

/-- C9 amended: all four store operations address the file derived from the
trimmed title, so two titles with equal trimmed forms give identical `Save`
results, and `Update`, `Delete` and `Load` results identical up to the raw
title echoed in error payloads (the rename, delete and load error messages)
and in the loaded note's `Title` field. -/
theorem store_ops_trim_insensitive (env : FsEnv) (d : Dir) (now tm : Int)
    (t t' c : String) (uT uC : Option String) (h : trimSpace t = trimSpace t') :
    Store.Save env d now { Title := t, Content := c, ModTime := tm } =
      Store.Save env d now { Title := t', Content := c, ModTime := tm } ∧
    opView (Store.Update env d now t uT uC) =
      opView (Store.Update env d now t' uT uC) ∧
    opView (Store.Delete env d t) = opView (Store.Delete env d t') ∧
    loadView (Store.Load d t) = loadView (Store.Load d t') := by
  have hf : noteFilename t = noteFilename t' := by
    unfold noteFilename
    rw [h]
  refine ⟨?_, ?_, ?_, ?_⟩
  · simp only [Store.Save, h, hf]
  · unfold Store.Update
    rw [h, hf]
    by_cases hb : trimSpace t' = ""
    · rw [if_pos hb, if_pos hb]
    · rw [if_neg hb, if_neg hb]
      by_cases hnn : uT = none ∧ uC = none
      · rw [if_pos hnn, if_pos hnn]
      · rw [if_neg hnn, if_neg hnn]
        cases uT with
        | none => rfl
        | some newT =>
          dsimp only
          by_cases hnt : trimSpace newT = ""
          · rw [if_neg (not_not_intro hnt), if_neg (not_not_intro hnt)]
          · rw [if_pos hnt, if_pos hnt]
            cases hr : renameFs env d (noteFilename t') (noteFilename newT) with
            | error fe => simp [opView, StoreError.kind]
            | ok d1 => rfl
  · unfold Store.Delete
    rw [h, hf]
    by_cases hb : trimSpace t' = ""
    · rw [if_pos hb, if_pos hb]
    · rw [if_neg hb, if_neg hb]
      cases hrm : removeFs env d (noteFilename t') with
      | error fe => cases fe <;> simp [opView, StoreError.kind]
      | ok d2 => simp [opView]
  · unfold Store.Load
    rw [hf]
    dsimp only
    cases hr : readFileFs d (noteFilename t') with
    | error fe => cases fe <;> simp [loadView, StoreError.kind]
    | ok content =>
      cases hs : statFs d (noteFilename t') with
      | error fe => simp [loadView, StoreError.kind]
      | ok mt => simp [loadView]

/-- C9 counterexample: "a" and " a " address the same file, but the results
are not the same — `Load` echoes the title exactly as passed in the `Title`
field, and a failing rename makes `Update` return an error interpolating the
raw old title. -/
theorem load_title_padding_counterexample :
    trimSpace " a " = trimSpace "a" ∧
    Store.Load [⟨"a.md", false, "x", 0, true, true⟩] "a" ≠
      Store.Load [⟨"a.md", false, "x", 0, true, true⟩] " a " ∧
    Store.Update envAllOk [] 0 "a" (some "b") none ≠
      Store.Update envAllOk [] 0 " a " (some "b") none := by
  decide

/-- C9 witness: deleting with a padded title gives the same observable
outcome as with the trimmed title. -/
theorem store_ops_trim_insensitive_witness :
    opView (Store.Delete envAllOk [] "a") = opView (Store.Delete envAllOk [] " a ") :=
  (store_ops_trim_insensitive envAllOk [] 0 0 "a" " a " "" none none (by decide)).2.2.1
